import Mathlib

/-!
A verification development for the incremental climate-data cache
(`climate_cache.py` and `msc_client.py`).

The development has two layers, mirroring the two modules:

* The orchestration layer (`MSCClient`): calendar dates are modelled as
  day indices (natural numbers), the successor-ordered abstraction of
  `datetime.date`.  ISO-8601 date strings and `YYYYMMDD` integers are
  order-isomorphic encodings of day indices (for fixed-width ISO strings
  lexicographic order coincides with chronological order, which is what
  `_get_missing_blocks` relies on), and `datetime.date.resolution`
  advances a day index by one.

* The storage layer (`ClimateCache`): date strings and the `YYYYMMDD`
  integer encoding are modelled concretely, following the parsing code.
-/

set_option autoImplicit false

namespace ClimateSpec

/-! ## Gap resolver (`MSCClient._get_missing_blocks`) -/

/-- A row of the `station_requests` table as returned by
`ClimateCache.get_station_requests`: (start date, end date, status). -/
abbrev ReqEntry := Nat × Nat × String

/-- `d` falls inside some logged block of `L` (the containment test
`s <= d_str <= e` in the loop over `checked_ranges`; the status is
ignored, as in the source, which binds it to `_status`). -/
def coveredBy (L : List ReqEntry) (d : Nat) : Bool :=
  L.any (fun r => r.1 ≤ d && d ≤ r.2.1)

/-- The list `missing_dates` built by `_get_missing_blocks`: every date of
the requested inclusive interval (`all_req_dates`, built by the
`while curr <= req_end` loop) that is neither in `existing_dates` nor
inside any logged range. -/
def missingDates (reqStart reqEnd : Nat) (existing : List Nat)
    (checked : List ReqEntry) : List Nat :=
  (List.range' reqStart (reqEnd + 1 - reqStart)).filter
    (fun d => !(existing.contains d) && !(coveredBy checked d))

/-- The grouping loop of `_get_missing_blocks`: starting from an open
block `[bStart, prev]`, each further date `d` either extends the block
(when `d - prev <= 1`) or closes it and opens a new one (`d - prev > 1`);
the final open block is emitted at the end. -/
def groupGo (bStart prev : Nat) : List Nat → List (Nat × Nat)
  | [] => [(bStart, prev)]
  | d :: rest =>
    if d - prev > 1 then (bStart, prev) :: groupGo d d rest
    else groupGo bStart d rest

/-- `MSCClient._get_missing_blocks`, as a pure function of the requested
interval, the cached dates and the request log (the two cache reads it
performs).  `missing_dates.sort()` is the insertion sort below. -/
def get_missing_blocks (reqStart reqEnd : Nat) (existing : List Nat)
    (checked : List ReqEntry) : List (Nat × Nat) :=
  match (missingDates reqStart reqEnd existing checked).insertionSort (· ≤ ·) with
  | [] => []
  | m :: ms => groupGo m m ms

/-- `d` is covered by one of the returned blocks. -/
def inBlocks (blocks : List (Nat × Nat)) (d : Nat) : Bool :=
  blocks.any (fun b => b.1 ≤ d && d ≤ b.2)

@[simp]
theorem inBlocks_nil (d : Nat) : inBlocks [] d = false := rfl

@[simp]
theorem inBlocks_cons (b : Nat × Nat) (bs : List (Nat × Nat)) (d : Nat) :
    inBlocks (b :: bs) d = ((b.1 ≤ d && d ≤ b.2) || inBlocks bs d) := by
  simp [inBlocks]

theorem mem_missingDates {reqStart reqEnd d : Nat} {existing : List Nat}
    {checked : List ReqEntry} :
    d ∈ missingDates reqStart reqEnd existing checked ↔
      reqStart ≤ d ∧ d ≤ reqEnd ∧ d ∉ existing ∧ coveredBy checked d = false := by
  simp only [missingDates, List.mem_filter, List.mem_range'_1, Bool.and_eq_true,
    Bool.not_eq_true', List.contains, List.elem_eq_mem, decide_eq_false_iff_not]
  constructor
  · rintro ⟨⟨h1, h2⟩, h3, h4⟩
    exact ⟨h1, by omega, h3, h4⟩
  · rintro ⟨h1, h2, h3, h4⟩
    exact ⟨⟨h1, by omega⟩, h3, h4⟩

theorem missingDates_sorted (reqStart reqEnd : Nat) (existing : List Nat)
    (checked : List ReqEntry) :
    List.Pairwise (· < ·) (missingDates reqStart reqEnd existing checked) :=
  (List.pairwise_lt_range' _ _ 1 (by omega)).filter _

/-- Soundness of the grouping loop: every date covered by an emitted block
satisfies `P`, provided the open block `[bStart, prev]` is a contiguous
run of `P`-dates and the remaining dates all satisfy `P` and ascend from
`prev`. -/
theorem groupGo_sound (P : Nat → Prop) :
    ∀ (l : List Nat) (bStart prev : Nat),
      (∀ d, bStart ≤ d → d ≤ prev → P d) →
      List.Chain (· < ·) prev l →
      (∀ x ∈ l, P x) →
      ∀ d, inBlocks (groupGo bStart prev l) d = true → P d := by
  intro l
  induction l with
  | nil =>
    intro bStart prev hseed _ _ d hd
    simp only [groupGo, inBlocks_cons, inBlocks_nil, Bool.or_false,
      Bool.and_eq_true, decide_eq_true_eq] at hd
    exact hseed d hd.1 hd.2
  | cons a rest ih =>
    intro bStart prev hseed hchain hl d hd
    rcases hchain with _ | ⟨hpa, hchain⟩
    simp only [groupGo] at hd
    by_cases hgap : a - prev > 1
    · rw [if_pos hgap] at hd
      simp only [inBlocks_cons, Bool.or_eq_true, Bool.and_eq_true,
        decide_eq_true_eq] at hd
      rcases hd with ⟨h1, h2⟩ | hd
      · exact hseed d h1 h2
      · refine ih a a ?_ hchain (fun x hx => hl x (List.mem_cons_of_mem _ hx)) d hd
        intro x h1 h2
        have hx : x = a := by omega
        rw [hx]
        exact hl a (List.mem_cons_self a rest)
    · rw [if_neg hgap] at hd
      refine ih bStart a ?_ hchain (fun x hx => hl x (List.mem_cons_of_mem _ hx)) d hd
      intro x h1 h2
      by_cases hxp : x ≤ prev
      · exact hseed x h1 hxp
      · have hx : x = a := by omega
        rw [hx]
        exact hl a (List.mem_cons_self a rest)

/-- Completeness of the grouping loop: every date of the open block and
every remaining date ends up covered by some emitted block. -/
theorem groupGo_complete :
    ∀ (l : List Nat) (bStart prev : Nat),
      bStart ≤ prev →
      List.Chain (· < ·) prev l →
      ∀ d, ((bStart ≤ d ∧ d ≤ prev) ∨ d ∈ l) →
        inBlocks (groupGo bStart prev l) d = true := by
  intro l
  induction l with
  | nil =>
    intro bStart prev _ _ d hd
    rcases hd with ⟨h1, h2⟩ | hd
    · simp [groupGo, h1, h2]
    · simp at hd
  | cons a rest ih =>
    intro bStart prev hbs hchain d hd
    rcases hchain with _ | ⟨hpa, hchain⟩
    simp only [groupGo]
    by_cases hgap : a - prev > 1
    · rw [if_pos hgap]
      simp only [inBlocks_cons, Bool.or_eq_true, Bool.and_eq_true,
        decide_eq_true_eq]
      rcases hd with ⟨h1, h2⟩ | hd
      · exact Or.inl ⟨h1, h2⟩
      · rcases List.mem_cons.mp hd with rfl | hd
        · exact Or.inr (ih d d (le_refl d) hchain d (Or.inl ⟨le_refl d, le_refl d⟩))
        · exact Or.inr (ih a a (le_refl a) hchain d (Or.inr hd))
    · rw [if_neg hgap]
      rcases hd with ⟨h1, h2⟩ | hd
      · exact ih bStart a (by omega) hchain d (Or.inl ⟨h1, by omega⟩)
      · rcases List.mem_cons.mp hd with rfl | hd
        · exact ih bStart d (by omega) hchain d (Or.inl ⟨by omega, le_refl d⟩)
        · exact ih bStart a (by omega) hchain d (Or.inr hd)

/-- Every block emitted by the grouping loop starts at or after `bStart`. -/
theorem groupGo_start_ge :
    ∀ (l : List Nat) (bStart prev : Nat),
      bStart ≤ prev →
      List.Chain (· < ·) prev l →
      ∀ b ∈ groupGo bStart prev l, bStart ≤ b.1 := by
  intro l
  induction l with
  | nil =>
    intro bStart prev _ _ b hb
    simp only [groupGo, List.mem_singleton] at hb
    subst hb; exact le_refl _
  | cons a rest ih =>
    intro bStart prev hbs hchain b hb
    rcases hchain with _ | ⟨hpa, hchain⟩
    simp only [groupGo] at hb
    by_cases hgap : a - prev > 1
    · rw [if_pos hgap] at hb
      rcases List.mem_cons.mp hb with rfl | hb
      · exact le_refl _
      · have h1 := ih a a (le_refl a) hchain b hb
        omega
    · rw [if_neg hgap] at hb
      exact ih bStart a (by omega) hchain b hb

/-- The blocks emitted by the grouping loop are pairwise separated by more
than one day: the end of an earlier block is at least two days before the
start of any later one. -/
theorem groupGo_pairwise :
    ∀ (l : List Nat) (bStart prev : Nat),
      List.Chain (· < ·) prev l →
      List.Pairwise (fun b c => b.2 + 1 < c.1) (groupGo bStart prev l) := by
  intro l
  induction l with
  | nil =>
    intro bStart prev _
    simp [groupGo]
  | cons a rest ih =>
    intro bStart prev hchain
    rcases hchain with _ | ⟨hpa, hchain⟩
    simp only [groupGo]
    by_cases hgap : a - prev > 1
    · rw [if_pos hgap]
      refine List.Pairwise.cons ?_ (ih a a hchain)
      intro c hc
      have hca := groupGo_start_ge rest a a (le_refl a) hchain c hc
      omega
    · rw [if_neg hgap]
      exact ih bStart a hchain

/-- The returned blocks cover exactly the unsatisfied dates. -/
theorem inBlocks_get_missing_blocks (reqStart reqEnd : Nat) (existing : List Nat)
    (checked : List ReqEntry) (d : Nat) :
    inBlocks (get_missing_blocks reqStart reqEnd existing checked) d = true ↔
      d ∈ missingDates reqStart reqEnd existing checked := by
  have hsorted := missingDates_sorted reqStart reqEnd existing checked
  have hsort_eq :
      (missingDates reqStart reqEnd existing checked).insertionSort (· ≤ ·) =
        missingDates reqStart reqEnd existing checked :=
    List.Sorted.insertionSort_eq (hsorted.imp le_of_lt)
  unfold get_missing_blocks
  rw [hsort_eq]
  rcases hm : missingDates reqStart reqEnd existing checked with _ | ⟨m, ms⟩
  · simp
  · have hpw : List.Pairwise (· < ·) (m :: ms) := hm ▸ hsorted
    have hchain : List.Chain (· < ·) m ms :=
      List.chain_iff_pairwise.mpr hpw
    constructor
    · intro hd
      exact groupGo_sound (· ∈ m :: ms) ms m m
        (fun x h1 h2 => by
          have hx : x = m := le_antisymm h2 h1
          rw [hx]
          exact List.mem_cons_self m ms)
        hchain (fun x hx => List.mem_cons_of_mem _ hx) d hd
    · intro hd
      rcases List.mem_cons.mp hd with rfl | hd
      · exact groupGo_complete ms d d (le_refl d) hchain d (Or.inl ⟨le_refl d, le_refl d⟩)
      · exact groupGo_complete ms m m (le_refl m) hchain d (Or.inr hd)

/-- The returned blocks, in order, are pairwise non-adjacent. -/
theorem get_missing_blocks_pairwise (reqStart reqEnd : Nat) (existing : List Nat)
    (checked : List ReqEntry) :
    List.Pairwise (fun b c => b.2 + 1 < c.1)
      (get_missing_blocks reqStart reqEnd existing checked) := by
  have hsorted := missingDates_sorted reqStart reqEnd existing checked
  have hsort_eq :
      (missingDates reqStart reqEnd existing checked).insertionSort (· ≤ ·) =
        missingDates reqStart reqEnd existing checked :=
    List.Sorted.insertionSort_eq (hsorted.imp le_of_lt)
  unfold get_missing_blocks
  rw [hsort_eq]
  rcases hm : missingDates reqStart reqEnd existing checked with _ | ⟨m, ms⟩
  · simp
  · have hpw : List.Pairwise (· < ·) (m :: ms) := hm ▸ hsorted
    exact groupGo_pairwise ms m m (List.chain_iff_pairwise.mpr hpw)

/-- Scenario D of the specification: with 2021-03-01..10 and 2021-03-20..31
cached (as day indices 1..10 and 20..31 of March 2021), requesting 1..31
yields exactly the single gap block (11, 19). -/
theorem scenario_D :
    get_missing_blocks 1 31 (List.range' 1 10 ++ List.range' 20 12) [] =
      [(11, 19)] := by decide

/-- A logged EMPTY block suppresses re-fetch: with the range 1..10 logged
EMPTY and nothing cached, the resolver returns no blocks. -/
theorem scenario_C_requery :
    get_missing_blocks 1 10 [] [(1, 10, "EMPTY")] = [] := by decide

/-- C1: Gap Resolver correctness.  For every requested inclusive interval
`[reqStart, reqEnd]`, cached-date set `existing` and request log `checked`:
the dates covered by the returned blocks, the cached dates inside the
interval, and the logged-block dates inside the interval together are
exactly the interval; the returned blocks are pairwise non-adjacent (each
block ends at least two days before the next starts); and the returned
blocks are disjoint from the cached dates and from the logged coverage. -/
theorem gap_resolver_correct (reqStart reqEnd : Nat) (existing : List Nat)
    (checked : List ReqEntry) :
    (∀ d, (inBlocks (get_missing_blocks reqStart reqEnd existing checked) d = true
          ∨ (d ∈ existing ∧ reqStart ≤ d ∧ d ≤ reqEnd)
          ∨ (coveredBy checked d = true ∧ reqStart ≤ d ∧ d ≤ reqEnd))
        ↔ (reqStart ≤ d ∧ d ≤ reqEnd)) ∧
    List.Pairwise (fun b c => b.2 + 1 < c.1)
      (get_missing_blocks reqStart reqEnd existing checked) ∧
    (∀ d, inBlocks (get_missing_blocks reqStart reqEnd existing checked) d = true →
      d ∉ existing ∧ coveredBy checked d = false) := by
  refine ⟨?_, get_missing_blocks_pairwise reqStart reqEnd existing checked, ?_⟩
  · intro d
    constructor
    · rintro (hb | ⟨_, h1, h2⟩ | ⟨_, h1, h2⟩)
      · have := mem_missingDates.mp
          ((inBlocks_get_missing_blocks reqStart reqEnd existing checked d).mp hb)
        exact ⟨this.1, this.2.1⟩
      · exact ⟨h1, h2⟩
      · exact ⟨h1, h2⟩
    · rintro ⟨h1, h2⟩
      by_cases hex : d ∈ existing
      · exact Or.inr (Or.inl ⟨hex, h1, h2⟩)
      · by_cases hcov : coveredBy checked d = true
        · exact Or.inr (Or.inr ⟨hcov, h1, h2⟩)
        · refine Or.inl ?_
          rw [inBlocks_get_missing_blocks, mem_missingDates]
          exact ⟨h1, h2, hex, Bool.not_eq_true _ ▸ hcov⟩
  · intro d hb
    have := mem_missingDates.mp
      ((inBlocks_get_missing_blocks reqStart reqEnd existing checked d).mp hb)
    exact ⟨this.2.2.1, this.2.2.2⟩

/-- Witness for C1 at concrete inputs: request 1..5 with day 2 cached
and day 4 logged; day 3 is covered by a returned block, is inside the
interval, and lies outside the cache and the log coverage. -/
theorem gap_resolver_correct_witness :
    ((inBlocks (get_missing_blocks 1 5 [2] [(4, 4, "SUCCESS")]) 3 = true
        ∨ (3 ∈ [2] ∧ 1 ≤ 3 ∧ 3 ≤ 5)
        ∨ (coveredBy [(4, 4, "SUCCESS")] 3 = true ∧ 1 ≤ 3 ∧ 3 ≤ 5))
      ↔ (1 ≤ 3 ∧ 3 ≤ 5)) ∧
    (3 ∉ [2] ∧ coveredBy [(4, 4, "SUCCESS")] 3 = false) :=
  ⟨(gap_resolver_correct 1 5 [2] [(4, 4, "SUCCESS")]).1 3,
   (gap_resolver_correct 1 5 [2] [(4, 4, "SUCCESS")]).2.2 3 (by decide)⟩

/-- Coverage by the log entries created from a block list is coverage by
the blocks, whatever status each entry carries. -/
theorem coveredBy_map_blocks (blocks : List (Nat × Nat))
    (status : Nat × Nat → String) (d : Nat) :
    coveredBy (blocks.map (fun b => (b.1, b.2, status b))) d = inBlocks blocks d := by
  induction blocks with
  | nil => rfl
  | cons b bs ih => simp [coveredBy, inBlocks, List.any_cons] at ih ⊢; rw [ih]

/-- Coverage distributes over appended logs. -/
theorem coveredBy_append (L1 L2 : List ReqEntry) (d : Nat) :
    coveredBy (L1 ++ L2) d = (coveredBy L1 d || coveredBy L2 d) := by
  simp [coveredBy, List.any_append]

/-- An empty unsatisfied-date list yields no blocks. -/
theorem get_missing_blocks_eq_nil {reqStart reqEnd : Nat} {existing : List Nat}
    {checked : List ReqEntry}
    (h : missingDates reqStart reqEnd existing checked = []) :
    get_missing_blocks reqStart reqEnd existing checked = [] := by
  unfold get_missing_blocks
  rw [h]
  rfl

/-- C2: once the blocks returned by the gap resolver are appended to the
request log — each with an arbitrary status, so SUCCESS and EMPTY alike —
a subsequent resolver call for the same or any narrower interval returns
no blocks. -/
theorem gap_resolver_no_refetch (reqStart reqEnd s2 e2 : Nat)
    (existing : List Nat) (checked : List ReqEntry)
    (status : Nat × Nat → String)
    (hs : reqStart ≤ s2) (he : e2 ≤ reqEnd) :
    get_missing_blocks s2 e2 existing
      (checked ++ (get_missing_blocks reqStart reqEnd existing checked).map
        (fun b => (b.1, b.2, status b))) = [] := by
  have hmiss : missingDates s2 e2 existing
      (checked ++ (get_missing_blocks reqStart reqEnd existing checked).map
        (fun b => (b.1, b.2, status b))) = [] := by
    rw [List.eq_nil_iff_forall_not_mem]
    intro d hd
    rw [mem_missingDates] at hd
    obtain ⟨h1, h2, hex, hcov⟩ := hd
    rw [coveredBy_append, coveredBy_map_blocks, Bool.or_eq_false_iff] at hcov
    have hmem : d ∈ missingDates reqStart reqEnd existing checked :=
      mem_missingDates.mpr ⟨le_trans hs h1, le_trans h2 he, hex, hcov.1⟩
    rw [← inBlocks_get_missing_blocks] at hmem
    exact absurd (hmem.symm.trans hcov.2) (by decide)
  exact get_missing_blocks_eq_nil hmiss

/-- Witness for C2 at concrete inputs: request 1..10 with day 4 cached and
an unrelated logged block, log the returned gaps, then re-request 2..9. -/
theorem gap_resolver_no_refetch_witness :
    get_missing_blocks 2 9 [4] ([(12, 14, "SUCCESS")] ++
      (get_missing_blocks 1 10 [4] [(12, 14, "SUCCESS")]).map
        (fun b => (b.1, b.2, (fun _ => "EMPTY") b))) = [] :=
  gap_resolver_no_refetch 1 10 2 9 [4] [(12, 14, "SUCCESS")] (fun _ => "EMPTY")
    (by decide) (by decide)

/-! ## Pagination loop (`MSCClient._fetch_and_cache_block`, lines 159-195)

One server response page: the `features` list and the reported
`numberReturned` / `numberMatched` counters. -/

structure Page (α : Type) where
  features : List α
  numberReturned : Nat
  numberMatched : Nat

/-- The `while True` pagination loop of `_fetch_and_cache_block`.  `srv`
maps an offset to the page the server returns for it.  Each iteration
consumes one unit of fuel (the source loop has no such bound; `none`
models non-termination): if `features` is empty the loop breaks with the
accumulator unchanged; otherwise it appends the features, advances the
offset by `numberReturned`, and breaks when the new offset reaches
`numberMatched` or `numberReturned` is `0`. -/
def fetchLoop {α : Type} (srv : Nat → Page α) :
    Nat → Nat → List α → Option (List α)
  | 0, _, _ => none
  | fuel + 1, offset, acc =>
    let p := srv offset
    if p.features.isEmpty then some acc
    else if p.numberMatched ≤ offset + p.numberReturned ∨ p.numberReturned = 0 then
      some (acc ++ p.features)
    else fetchLoop srv fuel (offset + p.numberReturned) (acc ++ p.features)

/-- C3: pagination contract and termination.  (1) On a non-final page the
loop appends that page's features exactly once and continues at
`offset + numberReturned`; (2) it stops as soon as `numberReturned` is 0
or the advanced offset reaches `numberMatched`, returning the accumulated
features; (3) if every page reports the same `numberMatched = M` and every
page served below offset `M` is non-empty with `numberReturned ≥ 1`, the
loop terminates within `M + 1` iterations. -/
theorem fetch_loop_pagination {α : Type} (srv : Nat → Page α) :
    (∀ fuel offset acc,
      (srv offset).features.isEmpty = false →
      ¬((srv offset).numberMatched ≤ offset + (srv offset).numberReturned ∨
        (srv offset).numberReturned = 0) →
      fetchLoop srv (fuel + 1) offset acc =
        fetchLoop srv fuel (offset + (srv offset).numberReturned)
          (acc ++ (srv offset).features)) ∧
    (∀ fuel offset acc,
      (srv offset).features.isEmpty = false →
      ((srv offset).numberMatched ≤ offset + (srv offset).numberReturned ∨
        (srv offset).numberReturned = 0) →
      fetchLoop srv (fuel + 1) offset acc = some (acc ++ (srv offset).features)) ∧
    (∀ M : Nat,
      (∀ o, (srv o).numberMatched = M) →
      (∀ o, o < M → (srv o).features.isEmpty = false ∧ 1 ≤ (srv o).numberReturned) →
      (fetchLoop srv (M + 1) 0 []).isSome = true) := by
  refine ⟨?_, ?_, ?_⟩
  · intro fuel offset acc hne hcont
    simp only [fetchLoop, hne, Bool.false_eq_true, if_false, if_neg hcont]
  · intro fuel offset acc hne hstop
    simp only [fetchLoop, hne, Bool.false_eq_true, if_false, if_pos hstop]
  · intro M hM hpages
    have haux : ∀ fuel offset acc, M - offset < fuel →
        (fetchLoop srv fuel offset (acc : List α)).isSome = true := by
      intro fuel
      induction fuel with
      | zero => intro offset acc h; omega
      | succ n ih =>
        intro offset acc h
        simp only [fetchLoop]
        by_cases hne : (srv offset).features.isEmpty
        · simp [hne]
        · rw [Bool.not_eq_true] at hne
          simp only [hne, Bool.false_eq_true, if_false]
          by_cases hstop : (srv offset).numberMatched ≤
              offset + (srv offset).numberReturned ∨ (srv offset).numberReturned = 0
          · rw [if_pos hstop]; rfl
          · rw [if_neg hstop]
            push_neg at hstop
            have hoff : offset < M := by
              have := hM offset
              omega
            have hret := (hpages offset hoff).2
            refine ih (offset + (srv offset).numberReturned) (acc ++ (srv offset).features) ?_
            have := hM offset
            omega
    exact haux (M + 1) 0 [] (by omega)

/-- A concrete server for the witness: five single-feature pages matching
5 features in total, empty pages beyond. -/
def srvW : Nat → Page Nat := fun o =>
  if o < 5 then ⟨[100 + o], 1, 5⟩ else ⟨[], 0, 5⟩

/-- Witness for C3 at the concrete server `srvW`: the loop advances past
the first page, stops on the final page, and terminates from offset 0
with fuel 6. -/
theorem fetch_loop_pagination_witness :
    fetchLoop srvW 3 0 [] = fetchLoop srvW 2 1 [100] ∧
    fetchLoop srvW 1 4 [100, 101, 102, 103] = some [100, 101, 102, 103, 104] ∧
    (fetchLoop srvW 6 0 []).isSome = true :=
  ⟨(fetch_loop_pagination srvW).1 2 0 [] (by decide) (by decide),
   (fetch_loop_pagination srvW).2.1 0 4 [100, 101, 102, 103] (by decide) (by decide),
   (fetch_loop_pagination srvW).2.2 5 (fun o => by
      simp only [srvW]
      split <;> rfl)
    (fun o ho => by
      interval_cases o <;> decide)⟩

/-! ## Orchestration-layer cache model

`MSCClient.fetch_daily_data` and `_fetch_and_cache_block` interact with
the cache through `get_existing_dates`, `get_station_requests`,
`save_daily`, `log_station_request` and `get_cached_daily`.  At this
layer dates are day indices and the cache state is modelled directly;
the concrete `YYYYMMDD`/string encodings of `climate_cache.py` are
modelled separately below. -/

/-- Python 3 `round` to the nearest integer, halves to the even
neighbour (used as `int(round(value * 10))` in `save_daily`). -/
def pyRound (x : ℚ) : ℤ :=
  if x - ⌊x⌋ < 1 / 2 then ⌊x⌋
  else if 1 / 2 < x - ⌊x⌋ then ⌊x⌋ + 1
  else if 2 ∣ ⌊x⌋ then ⌊x⌋ else ⌊x⌋ + 1

/-- One record of `station_data` built by the fetch loop from a feature's
properties. -/
structure DailyRec where
  station_id : String
  date : Nat
  temp_mean : Option ℚ
  temp_min : Option ℚ
  temp_max : Option ℚ
  precip : Option ℚ
deriving DecidableEq

/-- A stored row of the `daily_data` table (values scaled by 10). -/
structure DailyRowO where
  stationKey : Nat
  date : Nat
  temp_mean : Option ℤ
  temp_min : Option ℤ
  temp_max : Option ℤ
  precip : Option ℤ
deriving DecidableEq

/-- A stored row of the `station_requests` table. -/
structure ReqRowO where
  stationKey : Nat
  start_date : Nat
  end_date : Nat
  status : String
deriving DecidableEq

/-- The three tables created by `ClimateCache._init_db`; a station's
surrogate key is its position in `stations`. -/
structure OCache where
  stations : List String
  daily : List DailyRowO
  requests : List ReqRowO
deriving DecidableEq

/-- The column names of `DAILY_SCHEMA` in `climate_cache.py`. -/
def DAILY_SCHEMA : List String :=
  ["station_id", "date", "year", "month", "day",
   "temp_mean", "temp_min", "temp_max", "precip"]

/-- A row of the DataFrame returned by `get_cached_daily` (measurements
unscaled back to rationals). -/
structure OutRowO where
  station_id : String
  date : Nat
  temp_mean : Option ℚ
  temp_min : Option ℚ
  temp_max : Option ℚ
  precip : Option ℚ
deriving DecidableEq

/-- A polars DataFrame, reduced to its schema (column names) and rows. -/
structure Frame where
  schema : List String
  rows : List OutRowO
deriving DecidableEq

namespace OCache

/-- `ClimateCache._get_station_key`: lookup of the surrogate key. -/
def get_station_key (stations : List String) (sid : String) : Option Nat :=
  stations.findIdx? (fun s => s == sid)

/-- `ClimateCache.get_existing_dates`: the dates stored for the station
within the inclusive range (the source returns them as a set of ISO
strings; membership is all the gap resolver uses). -/
def get_existing_dates (st : OCache) (sid : String) (s e : Nat) : List Nat :=
  match get_station_key st.stations sid with
  | none => []
  | some k =>
    (st.daily.filter (fun r => r.stationKey == k && decide (s ≤ r.date)
      && decide (r.date ≤ e))).map (fun r => r.date)

/-- `ClimateCache.get_station_requests`: all logged ranges for the
station, as (start, end, status) triples. -/
def get_station_requests (st : OCache) (sid : String) : List ReqEntry :=
  match get_station_key st.stations sid with
  | none => []
  | some k =>
    (st.requests.filter (fun r => r.stationKey == k)).map
      (fun r => (r.start_date, r.end_date, r.status))

/-- `ClimateCache.log_station_request`: appends one request-log row, or
silently does nothing when the station was never saved. -/
def log_station_request (st : OCache) (sid : String) (s e : Nat)
    (status : String) : OCache :=
  match get_station_key st.stations sid with
  | none => st
  | some k => { st with requests := st.requests ++ [⟨k, s, e, status⟩] }

/-- The effect of one `INSERT ... ON CONFLICT(station_key, date) DO
UPDATE` statement: replace the row with the conflicting key, or append. -/
def upsertRow (daily : List DailyRowO) (row : DailyRowO) : List DailyRowO :=
  if daily.any (fun r => r.stationKey == row.stationKey && r.date == row.date)
  then daily.map (fun r =>
    if r.stationKey == row.stationKey && r.date == row.date then row else r)
  else daily ++ [row]

/-- Conversion of one fetched record to a stored row for station key `k`
(`int(round(v * 10))` on each present measurement). -/
def recToRow (k : Nat) (rec : DailyRec) : DailyRowO :=
  ⟨k, rec.date,
   rec.temp_mean.map (fun v => pyRound (v * 10)),
   rec.temp_min.map (fun v => pyRound (v * 10)),
   rec.temp_max.map (fun v => pyRound (v * 10)),
   rec.precip.map (fun v => pyRound (v * 10))⟩

/-- `ClimateCache.save_daily` seen at this layer: group the records by
station id (first-occurrence order), silently skip groups whose station
was never saved, and upsert each remaining row in order. -/
def save_daily (st : OCache) (recs : List DailyRec) : OCache :=
  if recs.isEmpty then st
  else
    let sids := (recs.map (fun r => r.station_id)).dedup
    let daily2 := sids.foldl (fun acc sid =>
      match get_station_key st.stations sid with
      | none => acc
      | some k =>
        ((recs.filter (fun r => r.station_id == sid)).map (recToRow k)).foldl
          upsertRow acc) st.daily
    { st with daily := daily2 }

/-- `ClimateCache.get_cached_daily` seen at this layer: the rows for the
station with date in `[sDate, eDate]` (in the source these bounds are
`start_year*10000 + 101` and `end_year*10000 + 1231`, the first and last
day of the two years), in primary-key order — the scan order of the
`WITHOUT ROWID` table — with measurements divided by 10. -/
def get_cached_daily (st : OCache) (sid : String) (sDate eDate : Nat) : Frame :=
  match get_station_key st.stations sid with
  | none => ⟨DAILY_SCHEMA, []⟩
  | some k =>
    let sel := (st.daily.filter (fun r => r.stationKey == k
        && decide (sDate ≤ r.date) && decide (r.date ≤ eDate))).insertionSort
      (fun a b => a.date ≤ b.date)
    ⟨DAILY_SCHEMA, sel.map (fun r =>
      ⟨sid, r.date,
       r.temp_mean.map (fun n => (n : ℚ) / 10),
       r.temp_min.map (fun n => (n : ℚ) / 10),
       r.temp_max.map (fun n => (n : ℚ) / 10),
       r.precip.map (fun n => (n : ℚ) / 10)⟩)⟩

end OCache

/-- An observable remote interaction: the paginated fetch of one block
for one station. -/
inductive Event where
  | remoteFetch : String → Nat → Nat → Event
deriving DecidableEq

/-- `MSCClient._fetch_and_cache_block`: run the (abstracted, see
`fetchLoop`) paginated fetch for the block, then either save the records
and log SUCCESS, or log EMPTY when no records came back.  The returned
event list records that the remote fetch path ran. -/
def fetch_and_cache_block (remote : String → Nat → Nat → List DailyRec)
    (st : OCache) (sid : String) (bs be : Nat) : OCache × List Event :=
  let recs := remote sid bs be
  if recs.isEmpty then
    (st.log_station_request sid bs be "EMPTY", [Event.remoteFetch sid bs be])
  else
    ((st.save_daily recs).log_station_request sid bs be "SUCCESS",
      [Event.remoteFetch sid bs be])

/-- The body of the `for sid in station_ids` loop of `fetch_daily_data`:
resolve gaps, fetch-and-cache each missing block, then append the
re-read cached data for the station. -/
def processStation (remote : String → Nat → Nat → List DailyRec)
    (reqStart reqEnd readS readE : Nat)
    (acc : List Frame × OCache × List Event) (sid : String) :
    List Frame × OCache × List Event :=
  let st := acc.2.1
  let blocks := get_missing_blocks reqStart reqEnd
    (st.get_existing_dates sid reqStart reqEnd) (st.get_station_requests sid)
  if blocks.isEmpty then
    (acc.1 ++ [st.get_cached_daily sid readS readE], st, acc.2.2)
  else
    let res := blocks.foldl (fun (p : OCache × List Event) b =>
      let q := fetch_and_cache_block remote p.1 sid b.1 b.2
      (q.1, p.2 ++ q.2)) (st, [])
    (acc.1 ++ [res.1.get_cached_daily sid readS readE], res.1, acc.2.2 ++ res.2)

/-- The calendar facts `fetch_daily_data` uses, abstracted over the
day-index encoding: first/last day of a year, the year of a day, and
today. -/
structure Calendar where
  firstDayOfYear : Nat → Nat
  lastDayOfYear : Nat → Nat
  yearOf : Nat → Nat
  today : Nat

/-- The requested end date: today when no end year is given, otherwise
Dec 31 of the end year clamped to today. -/
def reqEndOf (cal : Calendar) (end_year : Option Nat) : Nat :=
  match end_year with
  | none => cal.today
  | some y =>
    if cal.today < cal.lastDayOfYear y then cal.today else cal.lastDayOfYear y

/-- `pl.concat`: the frames' rows concatenated (all frames produced by
`get_cached_daily` share `DAILY_SCHEMA`). -/
def concatF (dfs : List Frame) : Frame :=
  ⟨(dfs.headD ⟨DAILY_SCHEMA, []⟩).schema, (dfs.map Frame.rows).flatten⟩

/-- `MSCClient.fetch_daily_data`: per-station gap-driven fetching, then
concatenation; an empty frame with the daily schema when no station was
requested.  Besides the DataFrame the model returns the final cache
state and the remote events, which the source performs as effects. -/
def fetch_daily_data (cal : Calendar)
    (remote : String → Nat → Nat → List DailyRec) (st : OCache)
    (station_ids : List String) (start_year : Nat) (end_year : Option Nat) :
    Frame × OCache × List Event :=
  let req_start := cal.firstDayOfYear start_year
  let req_end := reqEndOf cal end_year
  let readS := cal.firstDayOfYear start_year
  let readE := cal.lastDayOfYear (cal.yearOf req_end)
  let res := station_ids.foldl
    (processStation remote req_start req_end readS readE) ([], st, [])
  if res.1.isEmpty then (⟨DAILY_SCHEMA, []⟩, res.2.1, res.2.2)
  else (concatF res.1, res.2.1, res.2.2)

/-- `save_daily` never touches the `stations` table. -/
theorem save_daily_stations_eq (st : OCache) (recs : List DailyRec) :
    (st.save_daily recs).stations = st.stations := by
  unfold OCache.save_daily
  split <;> rfl

/-- `save_daily` never touches the `station_requests` table. -/
theorem save_daily_requests_eq (st : OCache) (recs : List DailyRec) :
    (st.save_daily recs).requests = st.requests := by
  unfold OCache.save_daily
  split <;> rfl

/-- When the station key exists, `log_station_request` appends exactly
one row. -/
theorem log_station_request_known {st : OCache} {sid : String} {k : Nat}
    (s e : Nat) (status : String)
    (hk : OCache.get_station_key st.stations sid = some k) :
    st.log_station_request sid s e status =
      { st with requests := st.requests ++ [⟨k, s, e, status⟩] } := by
  unfold OCache.log_station_request
  rw [hk]

/-- With no gaps, the per-station loop body leaves the cache untouched,
emits no remote event, and appends the cached read. -/
theorem processStation_no_gap (remote : String → Nat → Nat → List DailyRec)
    (reqStart reqEnd readS readE : Nat) (dfs : List Frame) (st : OCache)
    (evs : List Event) (sid : String)
    (h : get_missing_blocks reqStart reqEnd
      (st.get_existing_dates sid reqStart reqEnd)
      (st.get_station_requests sid) = []) :
    processStation remote reqStart reqEnd readS readE (dfs, st, evs) sid =
      (dfs ++ [st.get_cached_daily sid readS readE], st, evs) := by
  simp [processStation, h]

/-- Folding the per-station loop over stations that all have no gaps
leaves the state unchanged and only appends cached reads. -/
theorem foldl_processStation_no_gaps (remote : String → Nat → Nat → List DailyRec)
    (reqStart reqEnd readS readE : Nat) :
    ∀ (sids : List String) (st : OCache) (dfs : List Frame) (evs : List Event),
      (∀ sid ∈ sids, get_missing_blocks reqStart reqEnd
        (st.get_existing_dates sid reqStart reqEnd)
        (st.get_station_requests sid) = []) →
      sids.foldl (processStation remote reqStart reqEnd readS readE) (dfs, st, evs) =
        (dfs ++ sids.map (fun sid => st.get_cached_daily sid readS readE), st, evs) := by
  intro sids
  induction sids with
  | nil => intro st dfs evs _; simp
  | cons s rest ih =>
    intro st dfs evs h
    rw [List.foldl_cons,
      processStation_no_gap remote reqStart reqEnd readS readE dfs st evs s
        (h s (List.mem_cons_self s rest)),
      ih st (dfs ++ [st.get_cached_daily s readS readE]) evs
        (fun sid hm => h sid (List.mem_cons_of_mem _ hm))]
    simp

/-- `fetch_daily_data` with its let-bindings unfolded. -/
theorem fetch_daily_data_eq (cal : Calendar)
    (remote : String → Nat → Nat → List DailyRec) (st : OCache)
    (sids : List String) (sy : Nat) (ey : Option Nat) :
    fetch_daily_data cal remote st sids sy ey =
      (fun res : List Frame × OCache × List Event =>
        if res.1.isEmpty then (⟨DAILY_SCHEMA, []⟩, res.2.1, res.2.2)
        else (concatF res.1, res.2.1, res.2.2))
      (sids.foldl (processStation remote (cal.firstDayOfYear sy) (reqEndOf cal ey)
        (cal.firstDayOfYear sy) (cal.lastDayOfYear (cal.yearOf (reqEndOf cal ey))))
        ([], st, [])) := rfl

/-- C4: no gap implies no remote call.  (1) For a station whose gap
resolution is empty, the loop body of `fetch_daily_data` performs no
remote fetch and no write — the cache state and event list are unchanged
— and appends the cached data read directly from the store.  (2) A whole
invocation over stations that all resolve to no gaps leaves the cache
unchanged and performs no remote fetch. -/
theorem no_gap_no_remote_call :
    (∀ (remote : String → Nat → Nat → List DailyRec)
        (reqStart reqEnd readS readE : Nat) (dfs : List Frame) (st : OCache)
        (evs : List Event) (sid : String),
      get_missing_blocks reqStart reqEnd
        (st.get_existing_dates sid reqStart reqEnd)
        (st.get_station_requests sid) = [] →
      processStation remote reqStart reqEnd readS readE (dfs, st, evs) sid =
        (dfs ++ [st.get_cached_daily sid readS readE], st, evs)) ∧
    (∀ (cal : Calendar) (remote : String → Nat → Nat → List DailyRec)
        (st : OCache) (sids : List String) (sy : Nat) (ey : Option Nat),
      (∀ sid ∈ sids, get_missing_blocks (cal.firstDayOfYear sy) (reqEndOf cal ey)
        (st.get_existing_dates sid (cal.firstDayOfYear sy) (reqEndOf cal ey))
        (st.get_station_requests sid) = []) →
      (fetch_daily_data cal remote st sids sy ey).2.1 = st ∧
      (fetch_daily_data cal remote st sids sy ey).2.2 = []) := by
  refine ⟨processStation_no_gap, ?_⟩
  intro cal remote st sids sy ey h
  have hfold := foldl_processStation_no_gaps remote (cal.firstDayOfYear sy)
    (reqEndOf cal ey) (cal.firstDayOfYear sy)
    (cal.lastDayOfYear (cal.yearOf (reqEndOf cal ey))) sids st [] [] h
  rw [fetch_daily_data_eq, hfold]
  simp only [List.nil_append]
  refine ⟨?_, ?_⟩ <;> (split <;> rfl)

/-- An always-empty remote source. -/
def remote0 : String → Nat → Nat → List DailyRec := fun _ _ _ => []

/-- A cache that already logged the whole range 1..10 for station S1. -/
def stW2 : OCache := ⟨["S1"], [], [⟨0, 1, 10, "EMPTY"⟩]⟩

/-- A calendar for the witnesses: every year spans days 1..10 and today
is day 10. -/
def calW : Calendar := ⟨fun _ => 1, fun _ => 10, fun _ => 0, 10⟩

/-- Witness for C4: station S1 is fully covered by an EMPTY log entry,
so the loop body returns the cached read with no state change, and a
whole invocation leaves the cache untouched with no remote event. -/
theorem no_gap_no_remote_call_witness :
    processStation remote0 1 10 1 10 ([], stW2, []) "S1" =
      ([] ++ [stW2.get_cached_daily "S1" 1 10], stW2, []) ∧
    (fetch_daily_data calW remote0 stW2 ["S1"] 2020 (some 2021)).2.1 = stW2 ∧
    (fetch_daily_data calW remote0 stW2 ["S1"] 2020 (some 2021)).2.2 = [] :=
  ⟨no_gap_no_remote_call.1 remote0 1 10 1 10 [] stW2 [] "S1" (by decide),
   no_gap_no_remote_call.2 calW remote0 stW2 ["S1"] 2020 (some 2021) (by decide)⟩

/-- C5 counterexample: for a station never saved via `save_stations`,
processing a block appends no request-log entry at all (the claim
demands exactly one), because `log_station_request` silently returns
when the station key is missing. -/
theorem block_completion_logging_counterexample :
    ((fetch_and_cache_block remote0 ⟨[], [], []⟩ "S1" 1 2).1).requests.length ≠ 1 := by
  decide

/-- C5 (amended: provided the station has a key in the store): processing
one block appends exactly one request-log entry covering the block; its
status is SUCCESS if and only if the remote returned at least one record,
in which case the records are persisted via `save_daily` first, and EMPTY
if and only if none were returned, in which case no observation row is
written; both outcomes complete normally and perform one remote fetch. -/
theorem block_completion_logging (remote : String → Nat → Nat → List DailyRec)
    (st : OCache) (sid : String) (bs be k : Nat)
    (hk : OCache.get_station_key st.stations sid = some k) :
    (remote sid bs be = [] →
      fetch_and_cache_block remote st sid bs be =
        ({ st with requests := st.requests ++ [⟨k, bs, be, "EMPTY"⟩] },
         [Event.remoteFetch sid bs be])) ∧
    (remote sid bs be ≠ [] →
      fetch_and_cache_block remote st sid bs be =
        (⟨st.stations, (st.save_daily (remote sid bs be)).daily,
          st.requests ++ [⟨k, bs, be, "SUCCESS"⟩]⟩,
         [Event.remoteFetch sid bs be])) := by
  constructor
  · intro h
    simp only [fetch_and_cache_block, h, List.isEmpty_nil, if_true]
    rw [log_station_request_known bs be "EMPTY" hk]
  · intro h
    have hne : (remote sid bs be).isEmpty = false := by
      simp [List.isEmpty_iff, h]
    simp only [fetch_and_cache_block, hne, Bool.false_eq_true, if_false]
    have h1 := save_daily_stations_eq st (remote sid bs be)
    have h2 := save_daily_requests_eq st (remote sid bs be)
    rw [log_station_request_known bs be "SUCCESS" (h1 ▸ hk)]
    simp only [h1, h2]

/-- A remote source returning a single record for the witness. -/
def remoteW : String → Nat → Nat → List DailyRec :=
  fun _ _ _ => [⟨"S1", 7, some 1, none, none, some (5 / 2)⟩]

/-- A cache knowing station S1 and nothing else. -/
def stW : OCache := ⟨["S1"], [], []⟩

/-- Witness for C5 at concrete inputs: station S1 has key 0; the remote
returns one record, so the block is logged SUCCESS after persisting. -/
theorem block_completion_logging_witness :
    (remoteW "S1" 3 5 = [] →
      fetch_and_cache_block remoteW stW "S1" 3 5 =
        ({ stW with requests := stW.requests ++ [⟨0, 3, 5, "EMPTY"⟩] },
         [Event.remoteFetch "S1" 3 5])) ∧
    (remoteW "S1" 3 5 ≠ [] →
      fetch_and_cache_block remoteW stW "S1" 3 5 =
        (⟨stW.stations, (stW.save_daily (remoteW "S1" 3 5)).daily,
          stW.requests ++ [⟨0, 3, 5, "SUCCESS"⟩]⟩,
         [Event.remoteFetch "S1" 3 5])) :=
  block_completion_logging remoteW stW "S1" 3 5 0 (by decide)

/-- C10: with an empty station list, `fetch_daily_data` performs no
remote request and no store write, and returns the empty DataFrame
carrying the daily schema. -/
theorem fetch_daily_data_empty_stations (cal : Calendar)
    (remote : String → Nat → Nat → List DailyRec) (st : OCache)
    (sy : Nat) (ey : Option Nat) :
    fetch_daily_data cal remote st [] sy ey = (⟨DAILY_SCHEMA, []⟩, st, []) := rfl

/-! ## Storage layer (`climate_cache.py`), with concrete date strings and
`YYYYMMDD` integers.

A returned `Except.error` models a Python exception propagating out of
the method; the scoped `with sqlite3.connect(...)` block then rolls the
transaction back, so the on-disk state is unchanged in that case. -/

namespace ClimateCache

/-- The numeric value of a digit string. -/
def digitsVal (l : List Char) : Nat :=
  l.foldl (fun a c => a * 10 + (c.toNat - 48)) 0

/-- Python `str.strip()` with no argument: surrounding whitespace
removed. -/
def pyStrip (l : List Char) : List Char :=
  ((l.dropWhile Char.isWhitespace).reverse.dropWhile Char.isWhitespace).reverse

/-- Python `int(s)`: surrounding whitespace stripped, an optional sign,
then decimal digits (digit-group underscores and non-ASCII digits are
not modelled; no input in this development uses them).  `none` models
`ValueError`. -/
def pyInt? (cs : List Char) : Option Int :=
  match pyStrip cs with
  | [] => none
  | '+' :: rest =>
    if rest ≠ [] ∧ rest.all Char.isDigit then some (digitsVal rest) else none
  | '-' :: rest =>
    if rest ≠ [] ∧ rest.all Char.isDigit then some (-(digitsVal rest : Int)) else none
  | l => if l.all Char.isDigit then some (digitsVal l) else none

/-- `ClimateCache._date_to_int`.  The source's handler
`except ValueError, TypeError, IndexError:` is not valid Python 3 (it is
the Python 2 two-operand form with three operands, a `SyntaxError`), so
the intended catch never takes effect: a cleaned prefix that `int`
rejects raises, modelled as `.error "ValueError"`.  `none` input and the
empty string are falsy and give `Option.none` (no value), as does a
cleaned string shorter than 8 characters. -/
def date_to_int (date_str : Option String) : Except String (Option Int) :=
  match date_str with
  | none => .ok none
  | some s =>
    if s = "" then .ok none
    else
      let clean1 := ((s.toList.takeWhile (fun c => c ≠ ' ')).takeWhile
        (fun c => c ≠ 'T'))
      let clean := clean1.filter (fun c => !(c == '-' || c == '/' || c == '.'))
      if clean.length < 8 then .ok none
      else
        match pyInt? (clean.take 8) with
        | some n => .ok (some n)
        | none => .error "ValueError"

/-- Python `f"{n:0{width}d}"`. -/
def pad0 (width : Nat) (n : Int) : String :=
  if n < 0 then
    let s := toString (-n)
    "-" ++ String.mk (List.replicate (width - 1 - s.length) '0') ++ s
  else
    let s := toString n
    String.mk (List.replicate (width - s.length) '0') ++ s

/-- `ClimateCache._int_to_date_components`: `YYYYMMDD` integer back to
(ISO string, year, month, day), all-`none` when the input is `NULL` or
not 8 characters long. -/
def int_to_date_components (date_int : Option Int) :
    Option String × Option Int × Option Int × Option Int :=
  match date_int with
  | none => (none, none, none, none)
  | some n =>
    let s := (toString n).toList
    if s.length ≠ 8 then (none, none, none, none)
    else
      match pyInt? (s.take 4), pyInt? ((s.drop 4).take 2), pyInt? (s.drop 6) with
      | some y, some m, some d =>
        (some (pad0 4 y ++ "-" ++ pad0 2 m ++ "-" ++ pad0 2 d), some y, some m, some d)
      | _, _, _ => (none, none, none, none)

/-- A row of the daily DataFrame passed to `save_daily`
(`DAILY_SCHEMA`: measurements optional, date a string column). -/
structure InRow where
  station_id : String
  date : Option String
  year : Int
  month : Int
  day : Int
  temp_mean : Option ℚ
  temp_min : Option ℚ
  temp_max : Option ℚ
  precip : Option ℚ
deriving DecidableEq

/-- A stored `daily_data` row; the `WITHOUT ROWID` primary key
`(station_key, date)` forces `date NOT NULL`, so a stored date is a
plain integer. -/
structure CRow where
  stationKey : Nat
  date : Int
  temp_mean : Option ℤ
  temp_min : Option ℤ
  temp_max : Option ℤ
  precip : Option ℤ
deriving DecidableEq

/-- A stored `station_requests` row (dates here are nullable: the table
declares no NOT NULL constraint). -/
structure CReq where
  stationKey : Nat
  start_date : Option Int
  end_date : Option Int
  status : String
deriving DecidableEq

/-- The cache database: a station's surrogate key is its position in
`stations`. -/
structure CState where
  stations : List String
  daily : List CRow
  requests : List CReq
deriving DecidableEq

/-- `ClimateCache._get_station_key`. -/
def get_station_key (stations : List String) (sid : String) : Option Nat :=
  stations.findIdx? (fun s => s == sid)

/-- The key of a stored row: the `(station_key, date)` primary key. -/
def rowKey (r : CRow) : Nat × Int := (r.stationKey, r.date)

/-- The primary keys present in the table. -/
def keysOf (daily : List CRow) : List (Nat × Int) := daily.map rowKey

/-- `SELECT ... WHERE station_key = ? AND date = ?`: the row with the
given primary key, if any. -/
def lookupRow (daily : List CRow) (k : Nat × Int) : Option CRow :=
  daily.find? (fun r => rowKey r == k)

/-- One `INSERT ... ON CONFLICT(station_key, date) DO UPDATE` statement:
replace the conflicting row, otherwise append. -/
def upsertCRow (daily : List CRow) (row : CRow) : List CRow :=
  if daily.any (fun r => rowKey r == rowKey row) then
    daily.map (fun r => if rowKey r == rowKey row then row else r)
  else daily ++ [row]

/-- `int(round(v * 10))` on an optional measurement, `NULL` for absent. -/
def scaleVal (v : Option ℚ) : Option ℤ :=
  v.map (fun x => pyRound (x * 10))

/-- `scaled / 10.0` on an optional stored value, absent for `NULL`. -/
def unscaleVal (v : Option ℤ) : Option ℚ :=
  v.map (fun n => (n : ℚ) / 10)

/-- An element of `rows_to_insert`: the date may still be `NULL` here —
the `NOT NULL` primary-key constraint only fires at insert time. -/
structure PreRow where
  stationKey : Nat
  date : Option Int
  temp_mean : Option ℤ
  temp_min : Option ℤ
  temp_max : Option ℤ
  precip : Option ℤ
deriving DecidableEq

/-- The row-building loop of `save_daily` for one station group: parse
each date (a parse failure raises, see `date_to_int`) and scale each
measurement. -/
def buildRows (k : Nat) : List InRow → Except String (List PreRow)
  | [] => .ok []
  | r :: rest =>
    match date_to_int r.date with
    | .error e => .error e
    | .ok dInt =>
      match buildRows k rest with
      | .error e => .error e
      | .ok prs =>
        .ok (⟨k, dInt, scaleVal r.temp_mean, scaleVal r.temp_min,
          scaleVal r.temp_max, scaleVal r.precip⟩ :: prs)

/-- `conn.executemany(INSERT ... ON CONFLICT ... DO UPDATE, rows)`: the
rows are processed in order; a `NULL` date violates the `WITHOUT ROWID`
primary key's implicit NOT NULL and raises `sqlite3.IntegrityError`. -/
def executemany (daily : List CRow) : List PreRow → Except String (List CRow)
  | [] => .ok daily
  | p :: rest =>
    match p.date with
    | none => .error "IntegrityError"
    | some d =>
      executemany (upsertCRow daily
        ⟨p.stationKey, d, p.temp_mean, p.temp_min, p.temp_max, p.precip⟩) rest

/-- The `for key_tuple, group in df.group_by("station_id")` loop of
`save_daily` (group order modelled as first occurrence; the final table
content does not depend on it, distinct stations touching distinct
keys): groups of unknown stations are skipped before any parsing. -/
def processGroups (stations : List String) (df : List InRow) :
    List String → List CRow → Except String (List CRow)
  | [], daily => .ok daily
  | sid :: rest, daily =>
    match get_station_key stations sid with
    | none => processGroups stations df rest daily
    | some k =>
      match buildRows k (df.filter (fun r => r.station_id == sid)) with
      | .error e => .error e
      | .ok prs =>
        match executemany daily prs with
        | .error e => .error e
        | .ok daily2 => processGroups stations df rest daily2

/-- `ClimateCache.save_daily`.  An `.error` is a raised exception; the
scoped connection then rolls back, so no row of the call survives. -/
def save_daily (st : CState) (df : List InRow) : Except String CState :=
  if df.isEmpty then .ok st
  else
    match processGroups st.stations df
        ((df.map (fun r => r.station_id)).dedup) st.daily with
    | .error e => .error e
    | .ok daily2 => .ok { st with daily := daily2 }

/-- `ClimateCache.log_station_request`: append one request row, silently
skipping when the station has no key. -/
def log_station_request (st : CState) (sid : String)
    (start_date end_date : Option String) (status : String) :
    Except String CState :=
  match get_station_key st.stations sid with
  | none => .ok st
  | some k =>
    match date_to_int start_date with
    | .error e => .error e
    | .ok s =>
      match date_to_int end_date with
      | .error e => .error e
      | .ok e2 => .ok { st with requests := st.requests ++ [⟨k, s, e2, status⟩] }

/-- A row of the DataFrame returned by `get_cached_daily`. -/
structure OutRow where
  station_id : String
  date : Option String
  year : Option Int
  month : Option Int
  day : Option Int
  temp_mean : Option ℚ
  temp_min : Option ℚ
  temp_max : Option ℚ
  precip : Option ℚ
deriving DecidableEq

/-- Conversion of one stored row for the returned DataFrame. -/
def outRow (station_id : String) (r : CRow) : OutRow :=
  let c := int_to_date_components (some r.date)
  ⟨station_id, c.1, c.2.1, c.2.2.1, c.2.2.2,
   unscaleVal r.temp_mean, unscaleVal r.temp_min,
   unscaleVal r.temp_max, unscaleVal r.precip⟩

/-- The `SELECT ... WHERE station_key = ? AND date BETWEEN ? AND ?`
query of `get_cached_daily`: the matching rows, in primary-key order —
the scan order of the `WITHOUT ROWID` table, modelled by the sort. -/
def query_rows (daily : List CRow) (k : Nat) (sDate eDate : Int) : List CRow :=
  (daily.filter (fun r => r.stationKey == k
      && decide (sDate ≤ r.date) && decide (r.date ≤ eDate))).insertionSort
    (fun a b => a.date ≤ b.date)

/-- `ClimateCache.get_cached_daily`: rows of the station with
`start_year*10000 + 101 <= date <= end_year*10000 + 1231` (the first and
last day of the two years in the `YYYYMMDD` encoding), empty for an
unknown station. -/
def get_cached_daily (st : CState) (station_id : String)
    (start_year end_year : Int) : List OutRow :=
  match get_station_key st.stations station_id with
  | none => []
  | some k =>
    let rows := query_rows st.daily k (start_year * 10000 + 101)
      (end_year * 10000 + 1231)
    rows.map (outRow station_id)

end ClimateCache

open ClimateCache in
instance : IsTotal ClimateCache.CRow (fun a b => a.date ≤ b.date) :=
  ⟨fun a b => le_total a.date b.date⟩

open ClimateCache in
instance : IsTrans ClimateCache.CRow (fun a b => a.date ≤ b.date) :=
  ⟨fun _ _ _ h1 h2 => le_trans h1 h2⟩

/-- C6, code bug, evaluated at failing inputs.  The spec demands that a
date string that cannot be reduced to 8 leading digits is treated as
absent and the row excluded from the write, never raising.  The code
instead: (1) for a known station, a date whose cleaned 8-character
prefix is not a number raises an uncaught `ValueError` (the handler
`except ValueError, TypeError, IndexError:` in `_date_to_int` is a
Python 3 `SyntaxError`, so it cannot catch anything); (2) a date that
cleans to fewer than 8 digits becomes `None` but the row is still passed
to `executemany`, where the `WITHOUT ROWID` primary key raises
`sqlite3.IntegrityError`; in both cases the scoped transaction rolls
back, so even valid rows of the same call are not written.  Only the
unknown-station part of the claim holds (third conjunct: the group is
skipped before its rows are parsed). -/
theorem save_daily_malformed_date_raises :
    ClimateCache.save_daily ⟨["S1"], [], []⟩
      [⟨"S1", some "not-a-date", 2020, 1, 1, none, none, none, none⟩] =
      .error "ValueError" ∧
    ClimateCache.save_daily ⟨["S1"], [], []⟩
      [⟨"S1", some "2020-1-1", 2020, 1, 1, none, none, none, none⟩] =
      .error "IntegrityError" ∧
    ClimateCache.save_daily ⟨[], [], []⟩
      [⟨"S9", some "not-a-date", 2020, 1, 1, none, none, none, none⟩] =
      .ok ⟨[], [], []⟩ :=
  ⟨rfl, rfl, rfl⟩

/-- Python rounding moves a rational by at most one half. -/
theorem pyRound_sub_abs_le (x : ℚ) : |(pyRound x : ℚ) - x| ≤ 1 / 2 := by
  have h1 : (⌊x⌋ : ℚ) ≤ x := Int.floor_le x
  have h2 : x < ⌊x⌋ + 1 := Int.lt_floor_add_one x
  rw [abs_le]
  unfold pyRound
  split_ifs with c1 c2 c3 <;> constructor <;> push_cast <;> linarith

/-- C8: fixed-point round-trip.  Storing a present value `v` as
`round(v*10)` and reading it back as `scaled/10` changes it by at most
1/10 (in fact 1/20); an absent value is stored as NULL and read back as
absent — never as 0.  `save_daily` applies `scaleVal` and
`get_cached_daily` applies `unscaleVal` to each of the four measurement
fields. -/
theorem fixed_point_round_trip :
    (∀ v : ℚ, ∃ w : ℚ,
      ClimateCache.unscaleVal (ClimateCache.scaleVal (some v)) = some w ∧
      |w - v| ≤ 1 / 10) ∧
    ClimateCache.unscaleVal (ClimateCache.scaleVal none) = none := by
  constructor
  · intro v
    refine ⟨(pyRound (v * 10) : ℚ) / 10, rfl, ?_⟩
    have h := pyRound_sub_abs_le (v * 10)
    have e : (pyRound (v * 10) : ℚ) / 10 - v =
        ((pyRound (v * 10) : ℚ) - v * 10) / 10 := by ring
    rw [e, abs_div, abs_of_pos (by norm_num : (0:ℚ) < 10)]
    linarith
  · rfl

/-- C7: shape of `get_cached_daily`.  For an unknown station the result
is empty (not an error); for a known station with key `k` the result is
exactly the image of the stored rows of that station whose date lies in
the inclusive `YYYYMMDD` range of the two years, listed in ascending
date order. -/
theorem get_cached_daily_shape (st : ClimateCache.CState) (sid : String)
    (sy ey : Int) :
    (ClimateCache.get_station_key st.stations sid = none →
      ClimateCache.get_cached_daily st sid sy ey = []) ∧
    (∀ k, ClimateCache.get_station_key st.stations sid = some k →
      ClimateCache.get_cached_daily st sid sy ey =
        (ClimateCache.query_rows st.daily k (sy * 10000 + 101)
          (ey * 10000 + 1231)).map (ClimateCache.outRow sid) ∧
      List.Sorted (fun a b => a.date ≤ b.date)
        (ClimateCache.query_rows st.daily k (sy * 10000 + 101) (ey * 10000 + 1231)) ∧
      (∀ row : ClimateCache.CRow,
        row ∈ ClimateCache.query_rows st.daily k (sy * 10000 + 101)
          (ey * 10000 + 1231) ↔
        row ∈ st.daily ∧ row.stationKey = k ∧
          sy * 10000 + 101 ≤ row.date ∧ row.date ≤ ey * 10000 + 1231)) := by
  constructor
  · intro h
    unfold ClimateCache.get_cached_daily
    rw [h]
  · intro k hk
    refine ⟨?_, ?_, ?_⟩
    · unfold ClimateCache.get_cached_daily
      rw [hk]
    · exact List.sorted_insertionSort _ _
    · intro row
      unfold ClimateCache.query_rows
      rw [(List.perm_insertionSort _ _).mem_iff, List.mem_filter]
      simp [Bool.and_eq_true, beq_iff_eq, decide_eq_true_eq, and_assoc]

/-- A one-row cache for the C7 witness. -/
def stC7 : ClimateCache.CState :=
  ⟨["S1"], [⟨0, 20200102, none, none, none, none⟩], []⟩

/-- Witness for C7: an unknown station yields the empty sequence, and
for the known station S1 (key 0) the result is the sorted, filtered
selection. -/
theorem get_cached_daily_shape_witness :
    ClimateCache.get_cached_daily ⟨[], [], []⟩ "S1" 2020 2020 = [] ∧
    (ClimateCache.get_cached_daily stC7 "S1" 2020 2020 =
      (ClimateCache.query_rows stC7.daily 0 (2020 * 10000 + 101)
        (2020 * 10000 + 1231)).map (ClimateCache.outRow "S1") ∧
    List.Sorted (fun a b => a.date ≤ b.date)
      (ClimateCache.query_rows stC7.daily 0 (2020 * 10000 + 101) (2020 * 10000 + 1231)) ∧
    (∀ row : ClimateCache.CRow,
      row ∈ ClimateCache.query_rows stC7.daily 0 (2020 * 10000 + 101)
        (2020 * 10000 + 1231) ↔
      row ∈ stC7.daily ∧ row.stationKey = 0 ∧
        2020 * 10000 + 101 ≤ row.date ∧ row.date ≤ 2020 * 10000 + 1231)) :=
  ⟨(get_cached_daily_shape ⟨[], [], []⟩ "S1" 2020 2020).1 rfl,
   (get_cached_daily_shape stC7 "S1" 2020 2020).2 0 rfl⟩

namespace ClimateCache

/-- Membership in the `get_cached_daily` selection. -/
theorem mem_query_rows (daily : List CRow) (k : Nat) (sDate eDate : Int)
    (row : CRow) :
    row ∈ query_rows daily k sDate eDate ↔
      row ∈ daily ∧ row.stationKey = k ∧ sDate ≤ row.date ∧ row.date ≤ eDate := by
  unfold query_rows
  rw [(List.perm_insertionSort _ _).mem_iff, List.mem_filter]
  simp [Bool.and_eq_true, beq_iff_eq, decide_eq_true_eq, and_assoc]

/-- In the replaced table, the row with the upserted key is the new row. -/
theorem find_replace_eq (d : List CRow) (row : CRow)
    (h : d.any (fun r => rowKey r == rowKey row) = true) :
    (d.map (fun r => if rowKey r == rowKey row then row else r)).find?
      (fun r => rowKey r == rowKey row) = some row := by
  induction d with
  | nil => simp at h
  | cons a rest ih =>
    simp only [List.any_cons, Bool.or_eq_true] at h
    by_cases ha : (rowKey a == rowKey row) = true
    · rw [List.map_cons, if_pos ha, List.find?_cons_of_pos]
      simp
    · rw [List.map_cons, if_neg ha, List.find?_cons_of_neg]
      · exact ih (h.resolve_left ha)
      · simp only [ha]
        exact Bool.false_ne_true

/-- Replacing the row of one key leaves lookups at other keys alone. -/
theorem find_replace_ne (d : List CRow) (row : CRow) (k : Nat × Int)
    (hk : k ≠ rowKey row) :
    (d.map (fun r => if rowKey r == rowKey row then row else r)).find?
      (fun r => rowKey r == k) = d.find? (fun r => rowKey r == k) := by
  induction d with
  | nil => rfl
  | cons a rest ih =>
    rw [List.map_cons]
    by_cases ha : (rowKey a == rowKey row) = true
    · have haeq : rowKey a = rowKey row := beq_iff_eq.mp ha
      have h1 : (rowKey row == k) = false := by
        simp only [beq_eq_false_iff_ne]
        exact fun e => hk e.symm
      have h2 : (rowKey a == k) = false := by rw [haeq]; exact h1
      rw [if_pos ha, List.find?_cons, List.find?_cons, h1, h2]
      exact ih
    · rw [if_neg ha, List.find?_cons, List.find?_cons]
      cases hak : (rowKey a == k) with
      | true => rfl
      | false => exact ih

/-- `lookupRow` after an upsert: the upserted key now maps to the new
row, every other key is unchanged. -/
theorem lookupRow_upsert (d : List CRow) (row : CRow) (k : Nat × Int) :
    lookupRow (upsertCRow d row) k =
      if k = rowKey row then some row else lookupRow d k := by
  unfold upsertCRow lookupRow
  by_cases hany : (d.any (fun r => rowKey r == rowKey row)) = true
  · rw [if_pos hany]
    by_cases hk : k = rowKey row
    · subst hk
      rw [if_pos rfl]
      exact find_replace_eq d row hany
    · rw [if_neg hk]
      exact find_replace_ne d row k hk
  · rw [if_neg hany, List.find?_append]
    by_cases hk : k = rowKey row
    · subst hk
      have hdn : d.find? (fun r => rowKey r == rowKey row) = none := by
        rw [List.find?_eq_none]
        intro x hx hpx
        exact hany (List.any_eq_true.mpr ⟨x, hx, hpx⟩)
      rw [if_pos rfl, hdn]
      simp [List.find?]
    · rw [if_neg hk]
      have h1 : (rowKey row == k) = false := by
        simp only [beq_eq_false_iff_ne]
        exact fun e => hk e.symm
      simp [List.find?, h1]

/-- The keys after an upsert: unchanged on conflict, the new key
appended otherwise. -/
theorem keysOf_upsert (d : List CRow) (row : CRow) :
    keysOf (upsertCRow d row) =
      if (d.any (fun r => rowKey r == rowKey row)) then keysOf d
      else keysOf d ++ [rowKey row] := by
  unfold upsertCRow keysOf
  by_cases hany : (d.any (fun r => rowKey r == rowKey row)) = true
  · rw [if_pos hany, if_pos hany, List.map_map]
    refine List.map_congr_left ?_
    intro r _
    simp only [Function.comp]
    by_cases h : (rowKey r == rowKey row) = true
    · rw [if_pos h]
      exact (beq_iff_eq.mp h).symm
    · rw [if_neg h]
  · rw [if_neg hany, if_neg hany, List.map_append]
    rfl

/-- Upserting preserves key uniqueness (the primary-key invariant). -/
theorem keysOf_upsert_nodup (d : List CRow) (row : CRow)
    (h : (keysOf d).Nodup) : (keysOf (upsertCRow d row)).Nodup := by
  rw [keysOf_upsert]
  by_cases hany : (d.any (fun r => rowKey r == rowKey row)) = true
  · rw [if_pos hany]; exact h
  · rw [if_neg hany]
    have hnot : rowKey row ∉ keysOf d := by
      intro hm
      obtain ⟨r, hr, he⟩ := List.mem_map.mp hm
      exact hany (List.any_eq_true.mpr ⟨r, hr, by simp [beq_iff_eq, he]⟩)
    refine List.Nodup.append h (List.nodup_singleton _) ?_
    intro a ha1 ha2
    rw [List.mem_singleton] at ha2
    subst ha2
    exact hnot ha1

/-- A whole batch of upserts preserves key uniqueness. -/
theorem foldl_upsert_nodup (rows : List CRow) :
    ∀ d : List CRow, (keysOf d).Nodup →
      (keysOf (rows.foldl upsertCRow d)).Nodup := by
  induction rows with
  | nil => intro d h; exact h
  | cons r rest ih =>
    intro d h
    rw [List.foldl_cons]
    exact ih _ (keysOf_upsert_nodup d r h)

/-- With unique keys, a row is in the table exactly when looking up its
key returns it. -/
theorem mem_iff_lookup (d : List CRow) (hnd : (keysOf d).Nodup) (x : CRow) :
    x ∈ d ↔ lookupRow d (rowKey x) = some x := by
  constructor
  · intro hx
    induction d with
    | nil => simp at hx
    | cons a rest ih =>
      rw [keysOf, List.map_cons, List.nodup_cons] at hnd
      rcases List.mem_cons.mp hx with rfl | hx2
      · unfold lookupRow
        rw [List.find?_cons_of_pos]
        simp
      · have hne : (rowKey a == rowKey x) = false := by
          rw [beq_eq_false_iff_ne]
          intro he
          exact hnd.1 (he ▸ List.mem_map.mpr ⟨x, hx2, rfl⟩)
        unfold lookupRow
        rw [List.find?_cons, hne]
        exact ih hnd.2 hx2
  · intro h
    exact List.mem_of_find?_eq_some h

/-- The last insert for a key in a batch. -/
def lastWins (rows : List CRow) (k : Nat × Int) : Option CRow :=
  rows.reverse.find? (fun r => rowKey r == k)

/-- Lookup after a batch of upserts: the batch's last row for the key
wins, otherwise the table is consulted. -/
theorem lookupRow_foldl (rows : List CRow) :
    ∀ (d : List CRow) (k : Nat × Int),
      lookupRow (rows.foldl upsertCRow d) k =
        (lastWins rows k).or (lookupRow d k) := by
  induction rows with
  | nil =>
    intro d k
    simp [lastWins, Option.or]
  | cons r rest ih =>
    intro d k
    rw [List.foldl_cons, ih, lookupRow_upsert]
    have hl : lastWins (r :: rest) k =
        (lastWins rest k).or (if (rowKey r == k) then some r else none) := by
      unfold lastWins
      rw [List.reverse_cons, List.find?_append]
      cases hf : rest.reverse.find? (fun x => rowKey x == k) with
      | some v => simp [Option.or]
      | none =>
        simp only [Option.or]
        cases hp : (rowKey r == k) <;> simp [List.find?, hp]
    rw [hl]
    cases hw : lastWins rest k with
    | some v => simp [Option.or]
    | none =>
      by_cases hk : k = rowKey r
      · subst hk
        simp [Option.or, beq_iff_eq]
      · have hp : (rowKey r == k) = false := by
          rw [beq_eq_false_iff_ne]
          exact fun e => hk e.symm
        simp [Option.or, hp, hk]

/-- The effect of `executemany` on the table does not depend on the
table: either it raises (a `NULL` date in the batch, the same error for
every table) or it folds the batch's upserts over the table. -/
theorem executemany_spec (prs : List PreRow) :
    (∃ e, ∀ daily, executemany daily prs = .error e) ∨
    (∃ rows : List CRow, ∀ daily,
      executemany daily prs = .ok (rows.foldl upsertCRow daily)) := by
  induction prs with
  | nil => exact Or.inr ⟨[], fun _ => rfl⟩
  | cons p rest ih =>
    cases hp : p.date with
    | none =>
      refine Or.inl ⟨"IntegrityError", fun daily => ?_⟩
      unfold executemany
      rw [hp]
    | some d0 =>
      rcases ih with ⟨e, he⟩ | ⟨rows, hr⟩
      · refine Or.inl ⟨e, fun daily => ?_⟩
        unfold executemany
        rw [hp]
        exact he _
      · refine Or.inr ⟨⟨p.stationKey, d0, p.temp_mean, p.temp_min, p.temp_max,
          p.precip⟩ :: rows, fun daily => ?_⟩
        unfold executemany
        rw [hp, List.foldl_cons]
        exact hr _

/-- The effect of the group-processing loop of `save_daily` on the
table does not depend on the table: a fixed error, or a fixed batch of
upserts, both determined by the stations and the DataFrame alone. -/
theorem processGroups_spec (stations : List String) (df : List InRow) :
    ∀ sids : List String,
      (∃ e, ∀ daily, processGroups stations df sids daily = .error e) ∨
      (∃ rows : List CRow, ∀ daily,
        processGroups stations df sids daily = .ok (rows.foldl upsertCRow daily)) := by
  intro sids
  induction sids with
  | nil => exact Or.inr ⟨[], fun _ => rfl⟩
  | cons sid rest ih =>
    cases hk : get_station_key stations sid with
    | none =>
      rcases ih with ⟨e, he⟩ | ⟨rows, hr⟩
      · refine Or.inl ⟨e, fun daily => ?_⟩
        simp only [processGroups, hk]
        exact he _
      · refine Or.inr ⟨rows, fun daily => ?_⟩
        simp only [processGroups, hk]
        exact hr _
    | some k =>
      cases hb : buildRows k (df.filter (fun r => r.station_id == sid)) with
      | error e =>
        refine Or.inl ⟨e, fun daily => ?_⟩
        simp only [processGroups, hk, hb]
      | ok prs =>
        rcases executemany_spec prs with ⟨e, he⟩ | ⟨rows0, hr0⟩
        · refine Or.inl ⟨e, fun daily => ?_⟩
          simp only [processGroups, hk, hb, he daily]
        · rcases ih with ⟨e, he⟩ | ⟨rows1, hr1⟩
          · refine Or.inl ⟨e, fun daily => ?_⟩
            simp only [processGroups, hk, hb, hr0 daily]
            exact he _
          · refine Or.inr ⟨rows0 ++ rows1, fun daily => ?_⟩
            simp only [processGroups, hk, hb, hr0 daily, List.foldl_append]
            exact hr1 _

end ClimateCache

open ClimateCache in
/-- C9: upsert idempotence and the at-most-one-row invariant.  Starting
from a store with unique `(station, date)` keys, a successful
`save_daily` preserves uniqueness (no duplicate row is ever appended —
a conflicting key is overwritten instead), and saving the identical
DataFrame a second time leaves the observable content unchanged: every
key lookup and the whole `get_cached_daily` result set are the same. -/
theorem save_daily_idempotent_upsert (st : CState) (df : List InRow)
    (st1 st2 : CState)
    (hnd : (keysOf st.daily).Nodup)
    (h1 : ClimateCache.save_daily st df = .ok st1)
    (h2 : ClimateCache.save_daily st1 df = .ok st2) :
    ((keysOf st1.daily).Nodup ∧ (keysOf st2.daily).Nodup) ∧
    (∀ k, lookupRow st2.daily k = lookupRow st1.daily k) ∧
    (∀ (sid : String) (sy ey : Int) (r : OutRow),
      r ∈ ClimateCache.get_cached_daily st2 sid sy ey ↔
      r ∈ ClimateCache.get_cached_daily st1 sid sy ey) := by
  unfold ClimateCache.save_daily at h1 h2
  by_cases hdf : df.isEmpty
  · rw [if_pos hdf] at h1 h2
    injection h1 with e1
    subst e1
    injection h2 with e2
    subst e2
    exact ⟨⟨hnd, hnd⟩, fun _ => rfl, fun _ _ _ _ => Iff.rfl⟩
  · rw [if_neg hdf] at h1 h2
    rcases processGroups_spec st.stations df
        ((df.map (fun r => r.station_id)).dedup) with ⟨e, he⟩ | ⟨rows, hr⟩
    · rw [he st.daily] at h1
      cases h1
    · rw [hr st.daily] at h1
      injection h1 with e1
      have hs1 : st1.stations = st.stations := by rw [← e1]
      have hd1 : st1.daily = rows.foldl upsertCRow st.daily := by rw [← e1]
      have hq1 : st1.requests = st.requests := by rw [← e1]
      rw [hs1, hr st1.daily] at h2
      injection h2 with e2
      have hs2 : st2.stations = st.stations := by rw [← e2]
      have hd2 : st2.daily = rows.foldl upsertCRow st1.daily := by rw [← e2]
      have n1 : (keysOf st1.daily).Nodup := by
        rw [hd1]
        exact foldl_upsert_nodup rows st.daily hnd
      have n2 : (keysOf st2.daily).Nodup := by
        rw [hd2]
        exact foldl_upsert_nodup rows st1.daily n1
      have hlook : ∀ k, lookupRow st2.daily k = lookupRow st1.daily k := by
        intro k
        rw [hd2, lookupRow_foldl]
        conv_rhs => rw [hd1, lookupRow_foldl]
        rw [hd1, lookupRow_foldl]
        cases hw : lastWins rows k <;> simp [Option.or]
      refine ⟨⟨n1, n2⟩, hlook, ?_⟩
      intro sid sy ey r
      have hmem : ∀ row : CRow, row ∈ st2.daily ↔ row ∈ st1.daily := by
        intro row
        rw [mem_iff_lookup st2.daily n2, mem_iff_lookup st1.daily n1,
          hlook (rowKey row)]
      unfold ClimateCache.get_cached_daily
      rw [hs2, hs1]
      cases hgk : get_station_key st.stations sid with
      | none => exact Iff.rfl
      | some k =>
        simp only [List.mem_map]
        constructor
        · rintro ⟨row, hrow, hout⟩
          rw [mem_query_rows] at hrow
          exact ⟨row, (mem_query_rows _ _ _ _ _).mpr
            ⟨(hmem row).mp hrow.1, hrow.2⟩, hout⟩
        · rintro ⟨row, hrow, hout⟩
          rw [mem_query_rows] at hrow
          exact ⟨row, (mem_query_rows _ _ _ _ _).mpr
            ⟨(hmem row).mpr hrow.1, hrow.2⟩, hout⟩

/-- Concrete store, DataFrame and result for the C9 witness. -/
def stC9 : ClimateCache.CState := ⟨["S1"], [], []⟩

/-- One valid observation row for station S1. -/
def dfC9 : List ClimateCache.InRow :=
  [⟨"S1", some "2020-01-02", 2020, 1, 2, none, none, none, none⟩]

/-- The store after saving `dfC9` into `stC9` (once or twice). -/
def stC9s : ClimateCache.CState :=
  ⟨["S1"], [⟨0, 20200102, none, none, none, none⟩], []⟩

open ClimateCache in
/-- Witness for C9: saving `dfC9` twice from the empty store gives the
same single-row store both times. -/
theorem save_daily_idempotent_upsert_witness :
    ((keysOf stC9s.daily).Nodup ∧ (keysOf stC9s.daily).Nodup) ∧
    (∀ k, lookupRow stC9s.daily k = lookupRow stC9s.daily k) ∧
    (∀ (sid : String) (sy ey : Int) (r : OutRow),
      r ∈ ClimateCache.get_cached_daily stC9s sid sy ey ↔
      r ∈ ClimateCache.get_cached_daily stC9s sid sy ey) :=
  save_daily_idempotent_upsert stC9 dfC9 stC9s stC9s (by decide) rfl rfl

end ClimateSpec
